/-
Verification of the sopan SOCKS proxy checker (src/main.go) against its
natural-language specification.

The Go source is shallowly embedded as follows:
- `parseProxy`, `loadProxiesFromFile`, `saveSuccessfulProxies` and the flag
  handling in `main` are pure functions of their inputs and are translated
  directly.
- The external URL parser (Go `net/url.Parse`, together with `URL.Hostname`,
  `URL.Port` and `URL.User`, the only pieces `parseProxy` consumes) is
  modelled concretely by `goURLParse` below, following the structure of the
  Go standard library: control-character check, fragment split, scheme
  extraction, query split, authority extraction, userinfo and host/port
  validation with percent-escape handling.  Simplifications, noted inline:
  IPv6 zone identifiers are percent-decoded with the host decoder instead of
  the zone decoder, error message texts are abbreviated (Go embeds the URL
  into its messages; the repository only ever inspects the "invalid proxy
  format:" marker it prepends itself), and untracked fields (path, query,
  fragment, opaque) are validated but their values are dropped.
- The network (SOCKS5 dialer construction, the single HTTP exchange, the
  body drain, and the latency clock) is an external capability of
  `testProxy`; it is modelled by the `NetOracle` parameter.  `testProxyEx`
  additionally records the trace of externally visible steps the probe
  attempts, so that claims about "no dial/request was attempted" and about
  the dialer's arguments are statable.
- The worker pool `testProxies` is modelled as a small-step transition
  system `DispatchStep` over `PoolState`: `threads` identical workers pull
  raw strings from the FIFO work queue, probe synchronously, append the
  outcome to the results sink, and exit when the closed queue is drained.
-/
import Mathlib

/-! ## Character classes and list utilities (Go byte/rune predicates) -/

/-- ASCII control byte test used by `net/url` (`stringContainsCTLByte`). -/
def isCTLChar (c : Char) : Bool := c.toNat < 0x20 || c.toNat = 0x7f

/-- ASCII decimal digit. -/
def isAsciiDigit (c : Char) : Bool := 0x30 ≤ c.toNat && c.toNat ≤ 0x39

/-- ASCII letter (scheme first character, `getScheme`). -/
def isSchemeAlpha (c : Char) : Bool :=
  (0x41 ≤ c.toNat && c.toNat ≤ 0x5a) || (0x61 ≤ c.toNat && c.toNat ≤ 0x7a)

/-- Non-initial scheme characters other than letters: digits, `+`, `-`, `.`. -/
def isSchemeOther (c : Char) : Bool :=
  isAsciiDigit c || c = '+' || c = '-' || c = '.'

/-- Hex digit value, as in `net/url.unhex`. -/
def hexVal (c : Char) : Option Nat :=
  if 0x30 ≤ c.toNat && c.toNat ≤ 0x39 then some (c.toNat - 0x30)
  else if 0x61 ≤ c.toNat && c.toNat ≤ 0x66 then some (c.toNat - 0x61 + 10)
  else if 0x41 ≤ c.toNat && c.toNat ≤ 0x46 then some (c.toNat - 0x41 + 10)
  else none

/-- Split at the first occurrence of `sep`, excluding it; `none` if absent
(`strings.Cut` / `net/url.split` with `cutc = true`). -/
def cutFirstOpt (sep : Char) : List Char → Option (List Char × List Char)
  | [] => none
  | c :: cs =>
    if c = sep then some ([], cs)
    else (cutFirstOpt sep cs).map (fun pr => (c :: pr.1, pr.2))

/-- Split at the first occurrence of `sep`, the second part keeping `sep`
(`authority[:i], authority[i:]` in `net/url.parse`); `(l, [])` if absent. -/
def breakFirst (sep : Char) : List Char → List Char × List Char
  | [] => ([], [])
  | c :: cs =>
    if c = sep then ([], c :: cs)
    else
      let pr := breakFirst sep cs
      (c :: pr.1, pr.2)

/-- Split at the last occurrence of `sep`, excluding it; `none` if absent
(`strings.LastIndex`). -/
def splitAtLast (sep : Char) (l : List Char) : Option (List Char × List Char) :=
  match breakFirst sep l.reverse with
  | (_, []) => none
  | (revAfter, _ :: revBefore) => some (revBefore.reverse, revAfter.reverse)

/-! ## Model of `net/url` as consumed by `parseProxy` -/

/-- `net/url.Userinfo`: username and optional password (decoded). -/
structure GoUserinfo where
  username : String
  password : Option String
deriving DecidableEq, Repr

/-- The fields of `net/url.URL` that `parseProxy` consumes: the scheme, the
(decoded) `Host` component, and the userinfo. -/
structure GoURL where
  scheme : String
  host : String
  user : Option GoUserinfo
deriving DecidableEq, Repr

/-- `net/url.getScheme`: returns `(scheme, rest)`; an empty scheme means the
URL has no scheme and `rest` is the whole input.  Errors when the input
starts with `:`. -/
def getSchemeGo : List Char → List Char → Except String (List Char × List Char)
  | acc, [] => .ok ([], acc.reverse)
  | acc, c :: cs =>
    if isSchemeAlpha c then getSchemeGo (c :: acc) cs
    else if isSchemeOther c then
      if acc.isEmpty then .ok ([], c :: cs) else getSchemeGo (c :: acc) cs
    else if c = ':' then
      if acc.isEmpty then .error "missing protocol scheme"
      else .ok (acc.reverse, cs)
    else .ok ([], acc.reverse ++ c :: cs)

/-- Entry point of the scheme scanner. -/
def getScheme (cs : List Char) : Except String (List Char × List Char) :=
  getSchemeGo [] cs

/-- Percent-escape well-formedness: every `%` is followed by two hex digits
(the only check `net/url.unescape` performs outside host/zone mode). -/
def percentValid : List Char → Bool
  | [] => true
  | c :: cs =>
    if c = '%' then
      match cs with
      | c1 :: c2 :: rest => (hexVal c1).isSome && (hexVal c2).isSome && percentValid rest
      | _ => false
    else percentValid cs

/-- Percent-decoding with validity check (`net/url.unescape` in
`encodeUserPassword` mode: no character-class restrictions).  A decoded byte
is represented as the character with that code point. -/
def decodePercent : List Char → Option (List Char)
  | [] => some []
  | c :: cs =>
    if c = '%' then
      match cs with
      | c1 :: c2 :: rest =>
        match hexVal c1, hexVal c2 with
        | some h, some lo => (decodePercent rest).map (Char.ofNat (16 * h + lo) :: ·)
        | _, _ => none
      | _ => none
    else (decodePercent cs).map (c :: ·)

/-- Characters allowed unescaped in a host component
(`net/url.shouldEscape` with `encodeHost`: ASCII alphanumerics, `-_.~`,
the sub-delims and `:[]<>"`; all non-ASCII characters pass). -/
def hostCharOk (c : Char) : Bool :=
  isAsciiDigit c || isSchemeAlpha c ||
  c = '-' || c = '_' || c = '.' || c = '~' ||
  c = '!' || c = '$' || c = '&' || c.toNat = 39 || c = '(' || c = ')' ||
  c = '*' || c = '+' || c = ',' || c = ';' || c = '=' ||
  c = ':' || c = '[' || c = ']' || c = '<' || c = '>' || c = '"' ||
  0x80 ≤ c.toNat

/-- `net/url.unescape` in `encodeHost` mode: validates characters against
`hostCharOk`, and rejects `%`-escapes of ASCII bytes other than `%25`. -/
def unescapeHost : List Char → Except String (List Char)
  | [] => .ok []
  | c :: cs =>
    if c = '%' then
      match cs with
      | c1 :: c2 :: rest =>
        match hexVal c1, hexVal c2 with
        | some h, some lo =>
          if h < 8 && !(c1 = '2' && c2 = '5') then .error "escape error in host"
          else (unescapeHost rest).map (Char.ofNat (16 * h + lo) :: ·)
        | _, _ => .error "invalid URL escape"
      | _ => .error "invalid URL escape"
    else if hostCharOk c then (unescapeHost cs).map (c :: ·)
    else .error "invalid character in host name"

/-- `net/url.validOptionalPort`: empty, or `:` followed by decimal digits
(possibly none). -/
def validOptionalPort : List Char → Bool
  | [] => true
  | c :: rest => c = ':' && rest.all isAsciiDigit

/-- Characters `net/url.validUserinfo` accepts (ASCII alphanumerics and a
fixed symbol set; code point 39 is the apostrophe). -/
def userinfoCharOk (c : Char) : Bool :=
  isSchemeAlpha c || isAsciiDigit c ||
  c = '-' || c = '.' || c = '_' || c = ':' || c = '~' || c = '!' || c = '$' ||
  c = '&' || c.toNat = 39 || c = '(' || c = ')' || c = '*' || c = '+' ||
  c = ',' || c = ';' || c = '=' || c = '%' || c = '@'

/-- `net/url.parseHost`: validates an optional port suffix (bracketed IPv6
form or last-colon form) and decodes the host.  Simplification: an IPv6
zone (`%25`) is decoded by the host decoder rather than the zone decoder. -/
def parseHostGo (host : List Char) : Except String (List Char) :=
  if host.head? = some '[' then
    match splitAtLast ']' host with
    | none => .error "missing right bracket in host"
    | some (_, afterBracket) =>
      if !validOptionalPort afterBracket then .error "invalid port after host"
      else unescapeHost host
  else
    match splitAtLast ':' host with
    | none => unescapeHost host
    | some (_, afterColon) =>
      if afterColon.all isAsciiDigit then unescapeHost host
      else .error "invalid port after host"

/-- `net/url.parseAuthority`: split at the last `@`, parse the host part,
then validate and decode the userinfo (username before the first `:`,
password after it; no `:` means no password). -/
def parseAuthorityGo (authority : List Char) :
    Except String (Option GoUserinfo × List Char) :=
  match splitAtLast '@' authority with
  | none => (parseHostGo authority).map (fun h => (none, h))
  | some (userinfo, hostPart) =>
    match parseHostGo hostPart with
    | .error e => .error e
    | .ok h =>
      if !(userinfo.all userinfoCharOk) then .error "invalid userinfo"
      else
        match cutFirstOpt ':' userinfo with
        | none =>
          match decodePercent userinfo with
          | none => .error "invalid URL escape"
          | some un => .ok (some ⟨String.mk un, none⟩, h)
        | some (uRaw, pRaw) =>
          match decodePercent uRaw, decodePercent pRaw with
          | some un, some pw => .ok (some ⟨String.mk un, some (String.mk pw)⟩, h)
          | _, _ => .error "invalid URL escape"

/-- The body of `net/url.parse` (with `viaRequest = false`) after the
fragment has been split off: control-character check, scheme, query split,
opaque/rootless handling, authority extraction, path escape validation. -/
def parseNoFrag (before : List Char) : Except String GoURL :=
  if before.any isCTLChar then .error "invalid control character in URL"
  else
    match getScheme before with
    | .error e => .error e
    | .ok (scheme, rest0) =>
      -- query split at the first `?` (the `ForceQuery` special case strips a
      -- lone trailing `?` instead, which leaves the same `rest`)
      let rest :=
        match cutFirstOpt '?' rest0 with
        | none => rest0
        | some pr => pr.1
      if rest.head? ≠ some '/' then
        if !scheme.isEmpty then
          -- rootless path: treated as opaque, Host empty, User nil
          .ok ⟨String.mk scheme, "", none⟩
        else
          let seg := (breakFirst '/' rest).1
          if seg.contains ':' then
            .error "first path segment in URL cannot contain colon"
          else if percentValid rest then .ok ⟨"", "", none⟩
          else .error "invalid URL escape"
      else
        if (!scheme.isEmpty ||
            !(rest.take 3 = ['/', '/', '/'])) && rest.take 2 = ['/', '/'] then
          let afterSlashes := rest.drop 2
          let auth := breakFirst '/' afterSlashes
          match parseAuthorityGo auth.1 with
          | .error e => .error e
          | .ok (user, host) =>
            if percentValid auth.2 then .ok ⟨String.mk scheme, String.mk host, user⟩
            else .error "invalid URL escape"
        else if percentValid rest then .ok ⟨String.mk scheme, "", none⟩
        else .error "invalid URL escape"

/-- `net/url.Parse` on a character list: split the fragment off first, parse
the remainder, then validate the fragment's percent-escapes. -/
def goURLParseCore (cs : List Char) : Except String GoURL :=
  let cut := cutFirstOpt '#' cs
  let before := match cut with | none => cs | some pr => pr.1
  let frag := match cut with | none => ([] : List Char) | some pr => pr.2
  match parseNoFrag before with
  | .error e => .error e
  | .ok u => if percentValid frag then .ok u else .error "invalid URL escape"

/-- `net/url.Parse` on strings. -/
def goURLParse (s : String) : Except String GoURL :=
  goURLParseCore s.data

/-- `net/url.splitHostPort` (used by `URL.Hostname` and `URL.Port`): the
port is the part after the last colon when that suffix is a valid optional
port; brackets around the remaining host are stripped. -/
def splitHostPort (hostPort : List Char) : List Char × List Char :=
  let hp :=
    match splitAtLast ':' hostPort with
    | some (bef, aft) => if aft.all isAsciiDigit then (bef, aft) else (hostPort, [])
    | none => (hostPort, [])
  if hp.1.head? = some '[' && hp.1.getLast? = some ']' then
    (hp.1.drop 1 |>.dropLast, hp.2)
  else hp

/-- `URL.Hostname()`. -/
def GoURL.hostname (u : GoURL) : String := String.mk (splitHostPort u.host.data).1

/-- `URL.Port()`. -/
def GoURL.port (u : GoURL) : String := String.mk (splitHostPort u.host.data).2

/-! ## `parseProxy` (src/main.go:124-151) -/

/-- `strings.HasPrefix` on character lists. -/
def hasPrefixCL : List Char → List Char → Bool
  | _, [] => true
  | [], _ :: _ => false
  | c :: cs, p :: ps => c = p && hasPrefixCL cs ps

/-- `strings.HasPrefix` on strings. -/
def goHasPrefix (s pre : String) : Bool := hasPrefixCL s.data pre.data

/-- `ProxyInfo` (src/main.go:27-33). -/
structure ProxyInfo where
  host : String
  port : String
  username : String
  password : String
  raw : String
deriving DecidableEq, Repr

/-- The scheme normalization at the top of `parseProxy` (src/main.go:126-128):
prepend `socks5://` when neither recognized marker is present. -/
def normalizeProxy (s : String) : String :=
  if !goHasPrefix s "socks5://" && !goHasPrefix s "socks4://" then
    "socks5://" ++ s
  else s

/-- `parseProxy` (src/main.go:124-151): normalize the scheme, parse as a URL,
extract hostname/port/credentials, reject an empty host or port.  A pure
function of its input.  (Go builds the `ProxyInfo` record and then checks
`info.Host`/`info.Port`; the check here is written on the same values
directly.) -/
def parseProxy (proxyStr : String) : Except String ProxyInfo :=
  match goURLParse (normalizeProxy proxyStr) with
  | .error e => .error ("invalid proxy format: " ++ e)
  | .ok u =>
    if u.hostname = "" || u.port = "" then
      .error "invalid proxy format: missing host or port"
    else
      .ok { host := u.hostname
            port := u.port
            username := match u.user with | some ui => ui.username | none => ""
            password := match u.user with | some ui => ui.password.getD "" | none => ""
            raw := normalizeProxy proxyStr }

/-! ## `testProxy` (src/main.go:154-233) -/

/-- `TestResult` (src/main.go:36-41).  `latency` is the Go
`time.Duration` in nanoseconds; Go's zero values are `0` and `""`. -/
structure TestResult where
  proxy : String
  success : Bool
  latency : Nat
  error : String
deriving DecidableEq, Repr

/-- `proxy.Auth` from golang.org/x/net/proxy. -/
structure SocksAuth where
  user : String
  password : String
deriving DecidableEq, Repr

/-- Outcome of the single HTTP exchange (`client.Do` followed by the body
drain `io.Copy(io.Discard, resp.Body)`). -/
inductive ExchangeResult where
  | reqError (e : String)
  | readError (e : String)
  | response (status : Int)
deriving DecidableEq, Repr

/-- The external network capability `testProxy` relies on: SOCKS5 dialer
construction, request construction, the exchange itself, and the latency
clock reading taken when both the exchange and the drain complete. -/
structure NetOracle where
  socks5 : String → Option SocksAuth → Except String Unit
  newRequest : String → Except String Unit
  exchange : String → Option SocksAuth → String → Nat → ExchangeResult
  elapsed : Nat

/-- Externally visible steps a probe attempts, in order. -/
inductive ProbeStep where
  | parse
  | dial (addr : String) (auth : Option SocksAuth)
  | request (url : String)
  | readBody
deriving DecidableEq, Repr

/-- `net.JoinHostPort`. -/
def joinHostPort (host port : String) : String :=
  if host.contains ':' then "[" ++ host ++ "]:" ++ port else host ++ ":" ++ port

/-- The dialer authentication `testProxy` constructs (src/main.go:169-175):
credentials are passed only when the username is non-empty. -/
def authOf (info : ProxyInfo) : Option SocksAuth :=
  if info.username ≠ "" then some ⟨info.username, info.password⟩ else none

/-- `testProxy` (src/main.go:154-233) together with the trace of external
steps it attempts.  Each failure short-circuits into the outcome's error
field; the latency is recorded only after a successful drain. -/
def testProxyEx (net : NetOracle) (proxyStr : String) (timeout : Nat)
    (testURL : String) : TestResult × List ProbeStep :=
  let base : TestResult := { proxy := proxyStr, success := false, latency := 0, error := "" }
  match parseProxy proxyStr with
  | .error e => ({ base with error := e }, [.parse])
  | .ok info =>
    let auth := authOf info
    let addr := joinHostPort info.host info.port
    match net.socks5 addr auth with
    | .error e =>
      ({ base with error := "failed to create dialer: " ++ e }, [.parse, .dial addr auth])
    | .ok _ =>
      match net.newRequest testURL with
      | .error e =>
        ({ base with error := "failed to create request: " ++ e }, [.parse, .dial addr auth])
      | .ok _ =>
        match net.exchange addr auth testURL timeout with
        | .reqError e =>
          ({ base with error := "request failed: " ++ e },
           [.parse, .dial addr auth, .request testURL])
        | .readError e =>
          ({ base with error := "failed to read response: " ++ e },
           [.parse, .dial addr auth, .request testURL, .readBody])
        | .response code =>
          let ok := decide (200 ≤ code) && decide (code < 400)
          ({ proxy := proxyStr, success := ok, latency := net.elapsed,
             error := if ok then "" else "HTTP " ++ toString code },
           [.parse, .dial addr auth, .request testURL, .readBody])

/-- `testProxy` as the source exposes it: just the outcome. -/
def testProxy (net : NetOracle) (proxyStr : String) (timeout : Nat)
    (testURL : String) : TestResult :=
  (testProxyEx net proxyStr timeout testURL).1

/-- A fully successful network for concrete runs. -/
def okOracle : NetOracle :=
  { socks5 := fun _ _ => .ok ()
    newRequest := fun _ => .ok ()
    exchange := fun _ _ _ _ => .response 200
    elapsed := 7 }

/-! ## `loadProxiesFromFile` (src/main.go:100-121) and
`saveSuccessfulProxies` (src/main.go:305-325) -/

/-- The pieces of a byte stream delimited by `\n` (`strings`-level helper for
`bufio.ScanLines`); always non-empty. -/
def splitNL : List Char → List (List Char)
  | [] => [[]]
  | c :: cs =>
    if c = '\n' then [] :: splitNL cs
    else
      match splitNL cs with
      | p :: ps => (c :: p) :: ps
      | [] => [[c]]

/-- The tokens `bufio.Scanner` with `ScanLines` emits: the `\n`-delimited
pieces, except that no empty token is emitted after a final newline. -/
def lineTokens (cs : List Char) : List (List Char) :=
  if (splitNL cs).getLast? = some [] then (splitNL cs).dropLast else splitNL cs

/-- `bufio.dropCR`: strip one trailing carriage return. -/
def dropTrailingCR (l : List Char) : List Char :=
  if l.getLast? = some '\r' then l.dropLast else l

/-- `unicode.IsSpace`: the White_Space code points. -/
def isGoSpace (c : Char) : Bool :=
  (0x09 ≤ c.toNat && c.toNat ≤ 0x0d) || c.toNat = 0x20 || c.toNat = 0x85 ||
  c.toNat = 0xa0 || c.toNat = 0x1680 || (0x2000 ≤ c.toNat && c.toNat ≤ 0x200a) ||
  c.toNat = 0x2028 || c.toNat = 0x2029 || c.toNat = 0x202f ||
  c.toNat = 0x205f || c.toNat = 0x3000

/-- `strings.TrimSpace`. -/
def goTrim (l : List Char) : List Char :=
  ((l.dropWhile isGoSpace).reverse.dropWhile isGoSpace).reverse

/-- `loadProxiesFromFile` (src/main.go:100-121) applied to file contents that
were already read successfully: scan lines, trim whitespace, keep non-empty
lines not starting with `#`. -/
def loadProxiesFromFile (contents : List Char) : List String :=
  (lineTokens contents).filterMap (fun tok =>
    let line := goTrim (dropTrailingCR tok)
    if line ≠ [] ∧ line.head? ≠ some '#' then some (String.mk line) else none)

/-- `saveSuccessfulProxies` (src/main.go:305-325) applied to a writable file:
the contents written (one successful raw string per line, newline-terminated,
in order) and the count reported. -/
def saveSuccessfulProxies (results : List TestResult) : List Char × Nat :=
  ((results.filter (fun r => r.success)).flatMap (fun r => r.proxy.data ++ ['\n']),
   (results.filter (fun r => r.success)).length)

/-! ## Flag handling in `main` (src/main.go:53-97) -/

/-- How `main` leaves its argument-validation and proxy-loading phase
(src/main.go:56-81).  The first three constructors all call `os.Exit(1)`. -/
inductive MainOutcome where
  | usageError
  | loadError (msg : String)
  | noProxies
  | run (proxies : List String)
deriving DecidableEq, Repr

/-- The process exit `main` performs in each outcome (`none` = the run
continues to the dispatcher). -/
def mainOutcomeExit : MainOutcome → Option Nat
  | .run _ => none
  | _ => some 1

/-- The proxy-selection logic of `main` (src/main.go:56-81), with the file
system abstracted as `readFile` (contents of a named file, or an error).
Mirrors the source: a usage error only when both flags are empty; otherwise
`-proxy` takes the `if` branch whenever it is non-empty. -/
def mainSelectProxies (proxyFlag fileFlag : String)
    (readFile : String → Except String (List Char)) : MainOutcome :=
  if proxyFlag = "" && fileFlag = "" then .usageError
  else
    match
      (if proxyFlag ≠ "" then Except.ok [proxyFlag]
       else (readFile fileFlag).map loadProxiesFromFile) with
    | .error e => .loadError e
    | .ok ps => if ps.length = 0 then .noProxies else .run ps

/-! ## `testProxies` (src/main.go:236-270) as a transition system -/

/-- The status of one worker goroutine: blocked on the work channel, probing
one item, or exited (its `range` loop ended on the closed, drained channel). -/
inductive WStatus where
  | idle
  | busy (x : String)
  | done
deriving DecidableEq

/-- The shared state of a run of `testProxies`: the FIFO work queue
(`proxyChan`, already fully seeded and closed — the sends at
src/main.go:254-257 never block because the channel's capacity is the input
size), the workers, and the results sink (`resultsChan`, drained into the
`results` slice after the join). -/
structure PoolState where
  queue : List String
  workers : Multiset WStatus
  results : List TestResult
deriving DecidableEq

/-- The state `testProxies proxies threads` starts in.  Go's
`for i := 0; i < threads; i++` starts `threads` workers, none when
`threads ≤ 0`. -/
def initState (proxies : List String) (threads : Int) : PoolState :=
  ⟨proxies, Multiset.replicate threads.toNat WStatus.idle, []⟩

/-- One scheduler step of the worker pool: an idle worker receives the next
queued item, a busy worker finishes its probe and sends the outcome, or an
idle worker observes the closed empty channel and exits. -/
inductive DispatchStep (probe : String → TestResult) : PoolState → PoolState → Prop where
  | take (x : String) (rest : List String) (w : Multiset WStatus) (res : List TestResult) :
      DispatchStep probe ⟨x :: rest, WStatus.idle ::ₘ w, res⟩
        ⟨rest, WStatus.busy x ::ₘ w, res⟩
  | finish (q : List String) (x : String) (w : Multiset WStatus) (res : List TestResult) :
      DispatchStep probe ⟨q, WStatus.busy x ::ₘ w, res⟩
        ⟨q, WStatus.idle ::ₘ w, res ++ [probe x]⟩
  | exit (w : Multiset WStatus) (res : List TestResult) :
      DispatchStep probe ⟨[], WStatus.idle ::ₘ w, res⟩ ⟨[], WStatus.done ::ₘ w, res⟩

/-- Multi-step scheduling. -/
def DispatchReaches (probe : String → TestResult) : PoolState → PoolState → Prop :=
  Relation.ReflTransGen (DispatchStep probe)

/-- `testProxies` returns exactly when every worker has exited
(`wg.Wait()` at src/main.go:260). -/
def DispatchDone (s : PoolState) : Prop := ∀ w ∈ s.workers, w = WStatus.done

/-- The raw strings currently being probed. -/
def busyJobs (w : Multiset WStatus) : Multiset String :=
  w.filterMap (fun st => match st with | .busy x => some x | _ => none)

/-! ## Helper lemmas -/

/-- `String.mk` undoes `String.data`. -/
theorem stringMk_data (s : String) : String.mk s.data = s := rfl

/-- A string with a non-empty literal prepended is non-empty. -/
theorem append_ne_empty_left (a b : String) (ha : a ≠ "") : a ++ b ≠ "" := by
  intro h
  apply ha
  have hl := congrArg String.length h
  rw [String.length_append] at hl
  have : a.length = 0 := by
    have : ("" : String).length = 0 := rfl
    omega
  exact String.ext (List.length_eq_zero.mp this)

/-- Every error `parseProxy` produces carries the parse-error marker. -/
theorem parseProxy_error_shape (s e : String) (hp : parseProxy s = .error e) :
    ∃ msg, e = "invalid proxy format: " ++ msg := by
  unfold parseProxy at hp
  cases hgu : goURLParse (normalizeProxy s) with
  | error e2 =>
    simp only [hgu] at hp
    exact ⟨e2, by injection hp with h; exact h.symm⟩
  | ok u =>
    simp only [hgu] at hp
    split at hp
    · exact ⟨"missing host or port", by injection hp with h; exact h.symm⟩
    · exact Except.noConfusion hp

/-! ## Claim C4 -/

/-- C4: `parseProxy` fails exactly when, after scheme normalization, URL
parsing fails, the hostname is empty, or the port is empty; otherwise it
returns the hostname, the port and the optional credentials (with the
normalized string as the stored raw form).  `parseProxy` is a plain
function of its input, so it has no side effects. -/
theorem parseProxy_contract (s : String) :
    (∀ e, goURLParse (normalizeProxy s) = .error e →
       parseProxy s = .error ("invalid proxy format: " ++ e)) ∧
    (∀ u, goURLParse (normalizeProxy s) = .ok u →
       ((u.hostname = "" ∨ u.port = "") →
          parseProxy s = .error "invalid proxy format: missing host or port") ∧
       (u.hostname ≠ "" → u.port ≠ "" →
          parseProxy s = .ok
            { host := u.hostname
              port := u.port
              username := match u.user with | some ui => ui.username | none => ""
              password := match u.user with | some ui => ui.password.getD "" | none => ""
              raw := normalizeProxy s })) := by
  refine ⟨fun e he => ?_, fun u hu => ⟨fun hemp => ?_, fun hh hp => ?_⟩⟩
  · unfold parseProxy
    simp only [he]
  · unfold parseProxy
    simp only [hu]
    rcases hemp with h | h <;> simp [h]
  · unfold parseProxy
    simp only [hu]
    simp [hh, hp]

/-- Witness for C4 on a concrete credentialed proxy string. -/
theorem parseProxy_contract_witness :
    parseProxy "u:p@h:1080" =
      .ok { host := "h", port := "1080", username := "u", password := "p",
            raw := "socks5://u:p@h:1080" } := by
  have h := ((parseProxy_contract "u:p@h:1080").2
      ⟨"socks5", "h:1080", some ⟨"u", some "p"⟩⟩ rfl).2
      (by decide) (by decide)
  exact h

/-! ## Claim C2 -/

/-- C2: `testProxy` is total (it always returns an outcome for the raw
input string), and on a parse failure the outcome has `success = false`,
an error carrying the `invalid proxy format:` marker, and a zero latency,
while no dial, request or read step is attempted. -/
theorem testProxy_parse_failure (net : NetOracle) (s testURL : String)
    (timeout : Nat) (e : String) (hp : parseProxy s = .error e) :
    testProxyEx net s timeout testURL =
      ({ proxy := s, success := false, latency := 0, error := e }, [ProbeStep.parse]) ∧
    ∃ msg, e = "invalid proxy format: " ++ msg := by
  refine ⟨?_, parseProxy_error_shape s e hp⟩
  unfold testProxyEx
  simp only [hp]

/-- Witness for C2: a proxy string with no port. -/
theorem testProxy_parse_failure_witness :
    testProxyEx okOracle "nohost" 5 "https://example.com/" =
      ({ proxy := "nohost", success := false, latency := 0,
         error := "invalid proxy format: missing host or port" }, [ProbeStep.parse]) ∧
    ∃ msg, "invalid proxy format: missing host or port" =
      "invalid proxy format: " ++ msg :=
  testProxy_parse_failure okOracle "nohost" "https://example.com/" 5
    "invalid proxy format: missing host or port" rfl

/-! ## Claim C3 -/

/-- C3: when the exchange and drain complete with a status code, success
holds iff the code is in `[200,400)`; the latency (clock reading) is
recorded in both cases; on success the error is unset, otherwise it is
`HTTP <code>`. -/
theorem testProxy_status_contract (net : NetOracle) (s testURL : String)
    (timeout : Nat) (info : ProxyInfo) (code : Int)
    (hp : parseProxy s = .ok info)
    (hd : net.socks5 (joinHostPort info.host info.port) (authOf info) = .ok ())
    (hq : net.newRequest testURL = .ok ())
    (hx : net.exchange (joinHostPort info.host info.port) (authOf info)
            testURL timeout = .response code) :
    ((testProxy net s timeout testURL).success = true ↔ 200 ≤ code ∧ code < 400) ∧
    (testProxy net s timeout testURL).latency = net.elapsed ∧
    (200 ≤ code ∧ code < 400 → (testProxy net s timeout testURL).error = "") ∧
    (¬(200 ≤ code ∧ code < 400) →
       (testProxy net s timeout testURL).error = "HTTP " ++ toString code) := by
  have hgoal : testProxy net s timeout testURL =
      { proxy := s,
        success := decide (200 ≤ code) && decide (code < 400),
        latency := net.elapsed,
        error := if (decide (200 ≤ code) && decide (code < 400)) = true then ""
                 else "HTTP " ++ toString code } := by
    unfold testProxy testProxyEx
    simp only [hp, hd, hq, hx]
  rw [hgoal]
  refine ⟨by simp, rfl, ?_, ?_⟩
  · intro hc
    simp [hc.1, hc.2]
  · intro hc
    have hfalse : (decide (200 ≤ code) && decide (code < 400)) = false := by
      rcases not_and_or.mp hc with h | h <;> simp [h]
    simp [hfalse]

/-- Witness for C3 with a concrete 200 response. -/
theorem testProxy_status_contract_witness :
    ((testProxy okOracle "h:1080" 5 "u").success = true ↔
        (200 : Int) ≤ 200 ∧ (200 : Int) < 400) ∧
    (testProxy okOracle "h:1080" 5 "u").latency = okOracle.elapsed ∧
    ((200 : Int) ≤ 200 ∧ (200 : Int) < 400 →
        (testProxy okOracle "h:1080" 5 "u").error = "") ∧
    (¬((200 : Int) ≤ 200 ∧ (200 : Int) < 400) →
        (testProxy okOracle "h:1080" 5 "u").error = "HTTP " ++ toString (200 : Int)) :=
  testProxy_status_contract okOracle "h:1080" "u" 5
    ⟨"h", "1080", "", "", "socks5://h:1080"⟩ 200 rfl rfl rfl rfl

/-! ## Claim C6 -/

/-- C6: in every outcome `testProxy` produces, the error field is non-empty
exactly when the success flag is false (so a successful outcome always has
an empty error field). -/
theorem testProxy_error_iff_failure (net : NetOracle) (s testURL : String)
    (timeout : Nat) :
    ((testProxy net s timeout testURL).error ≠ "" ↔
       (testProxy net s timeout testURL).success = false) := by
  unfold testProxy testProxyEx
  cases hp : parseProxy s with
  | error e =>
    obtain ⟨msg, hmsg⟩ := parseProxy_error_shape s e hp
    have hne : e ≠ "" := hmsg ▸ append_ne_empty_left _ _ (by decide)
    simp [hp, hne]
  | ok info =>
    simp only [hp]
    cases hd : net.socks5 (joinHostPort info.host info.port) (authOf info) with
    | error e =>
      have hne := append_ne_empty_left "failed to create dialer: " e (by decide)
      simp [hd, hne]
    | ok u0 =>
      cases hq : net.newRequest testURL with
      | error e =>
        have hne := append_ne_empty_left "failed to create request: " e (by decide)
        simp [hq, hne]
      | ok u1 =>
        cases hx : net.exchange (joinHostPort info.host info.port) (authOf info)
            testURL timeout with
        | reqError e =>
          have hne := append_ne_empty_left "request failed: " e (by decide)
          simp [hx, hne]
        | readError e =>
          have hne := append_ne_empty_left "failed to read response: " e (by decide)
          simp [hx, hne]
        | response code =>
          cases hc : decide (200 ≤ code) && decide (code < 400) with
          | true => simp [hx, hc]
          | false =>
            have hne := append_ne_empty_left "HTTP " (toString code) (by decide)
            simp [hx, hc, hne]

/-! ## Claim C9 -/

/-- C9: when the parsed endpoint's username is empty, the prober constructs
the SOCKS5 dialer with no authentication — every dial step in the probe's
trace carries `none` — even when a password was parsed (it is discarded). -/
theorem testProxy_empty_username_anonymous (net : NetOracle) (s testURL : String)
    (timeout : Nat) (info : ProxyInfo) (hp : parseProxy s = .ok info)
    (hu : info.username = "") :
    authOf info = none ∧
    (∀ addr a, ProbeStep.dial addr a ∈ (testProxyEx net s timeout testURL).2 →
       a = none) := by
  have ha : authOf info = none := by simp [authOf, hu]
  refine ⟨ha, ?_⟩
  unfold testProxyEx
  simp only [hp, ha]
  intro addr a hmem
  cases hd : net.socks5 (joinHostPort info.host info.port) none with
  | error e =>
    simp only [hd] at hmem
    simp at hmem
    tauto
  | ok u0 =>
    cases hq : net.newRequest testURL with
    | error e =>
      simp only [hd, hq] at hmem
      simp at hmem
      tauto
    | ok u1 =>
      cases hx : net.exchange (joinHostPort info.host info.port) none
          testURL timeout with
      | reqError e =>
        simp only [hd, hq, hx] at hmem
        simp at hmem
        tauto
      | readError e =>
        simp only [hd, hq, hx] at hmem
        simp at hmem
        tauto
      | response code =>
        simp only [hd, hq, hx] at hmem
        simp at hmem
        tauto

/-- Witness for C9: a password-only credential (`:secret@`) is parsed with
an empty username and probed anonymously. -/
theorem testProxy_empty_username_anonymous_witness :
    authOf ⟨"h", "1080", "", "secret", "socks5://:secret@h:1080"⟩ = none ∧
    (∀ addr a, ProbeStep.dial addr a ∈
        (testProxyEx okOracle "socks5://:secret@h:1080" 5 "u").2 → a = none) :=
  testProxy_empty_username_anonymous okOracle "socks5://:secret@h:1080" "u" 5
    ⟨"h", "1080", "", "secret", "socks5://:secret@h:1080"⟩ rfl rfl

/-! ## Claim C8: the scheme marker is cosmetic -/

/-- `cutFirstOpt` skips a non-separator head. -/
theorem cutFirstOpt_cons_ne (sep c : Char) (l : List Char) (h : ¬ c = sep) :
    cutFirstOpt sep (c :: l) =
      (cutFirstOpt sep l).map (fun pr => (c :: pr.1, pr.2)) := by
  simp [cutFirstOpt, h]

/-- `cutFirstOpt` skips a separator-free prefix. -/
theorem cutFirstOpt_append (sep : Char) (pre l : List Char)
    (h : ∀ c ∈ pre, ¬ c = sep) :
    cutFirstOpt sep (pre ++ l) =
      (cutFirstOpt sep l).map (fun pr => (pre ++ pr.1, pr.2)) := by
  induction pre with
  | nil => cases h2 : cutFirstOpt sep l <;> simp [h2]
  | cons c cs ih =>
    rw [List.cons_append, cutFirstOpt_cons_ne sep c _ (h c (by simp)),
      ih (fun x hx => h x (by simp [hx]))]
    cases cutFirstOpt sep l <;> simp

/-- A list is a prefix of itself followed by anything (`strings.HasPrefix`). -/
theorem hasPrefixCL_append (pre l : List Char) : hasPrefixCL (pre ++ l) pre = true := by
  induction pre with
  | nil => cases l <;> rfl
  | cons c cs ih => simp [hasPrefixCL, ih]

/-- After either recognized scheme marker, `parseNoFrag` computes the same
host and userinfo; only the stored scheme differs. -/
theorem parseNoFrag_scheme_swap (b : List Char) :
    parseNoFrag (['s', 'o', 'c', 'k', 's', '4', ':', '/', '/'] ++ b) =
      (parseNoFrag (['s', 'o', 'c', 'k', 's', '5', ':', '/', '/'] ++ b)).map
        (fun u => { u with scheme := "socks4" }) := by
  unfold parseNoFrag
  have hctl4 : (['s', 'o', 'c', 'k', 's', '4', ':', '/', '/'] ++ b).any isCTLChar
      = b.any isCTLChar := rfl
  have hctl5 : (['s', 'o', 'c', 'k', 's', '5', ':', '/', '/'] ++ b).any isCTLChar
      = b.any isCTLChar := rfl
  rw [hctl4, hctl5]
  cases hb : b.any isCTLChar with
  | true => simp [Except.map]
  | false =>
    simp only [Bool.false_eq_true, if_false]
    have hsch4 : getScheme (['s', 'o', 'c', 'k', 's', '4', ':', '/', '/'] ++ b)
        = .ok (['s', 'o', 'c', 'k', 's', '4'], '/' :: '/' :: b) := rfl
    have hsch5 : getScheme (['s', 'o', 'c', 'k', 's', '5', ':', '/', '/'] ++ b)
        = .ok (['s', 'o', 'c', 'k', 's', '5'], '/' :: '/' :: b) := rfl
    rw [hsch4, hsch5]
    simp only []
    have hq2 : cutFirstOpt '?' ('/' :: '/' :: b) =
        (cutFirstOpt '?' b).map (fun pr => ('/' :: '/' :: pr.1, pr.2)) := by
      rw [cutFirstOpt_cons_ne _ _ _ (by decide), cutFirstOpt_cons_ne _ _ _ (by decide)]
      cases cutFirstOpt '?' b <;> rfl
    rw [hq2]
    cases hq : cutFirstOpt '?' b with
    | none =>
      simp only [Option.map_none']
      cases hpa : parseAuthorityGo (breakFirst '/' b).1 with
      | error e => simp [hpa, Except.map]
      | ok pr =>
        cases hpv : percentValid (breakFirst '/' b).2 with
        | true => simp [hpa, hpv, Except.map]
        | false => simp [hpa, hpv, Except.map]
    | some qpr =>
      simp only [Option.map_some']
      cases hpa : parseAuthorityGo (breakFirst '/' qpr.1).1 with
      | error e => simp [hpa, Except.map]
      | ok pr =>
        cases hpv : percentValid (breakFirst '/' qpr.1).2 with
        | true => simp [hpa, hpv, Except.map]
        | false => simp [hpa, hpv, Except.map]

/-- The scheme swap lifted through the fragment handling of `url.Parse`. -/
theorem goURLParseCore_scheme_swap (s : List Char) :
    goURLParseCore (['s', 'o', 'c', 'k', 's', '4', ':', '/', '/'] ++ s) =
      (goURLParseCore (['s', 'o', 'c', 'k', 's', '5', ':', '/', '/'] ++ s)).map
        (fun u => { u with scheme := "socks4" }) := by
  unfold goURLParseCore
  rw [cutFirstOpt_append '#' _ s (by decide), cutFirstOpt_append '#' _ s (by decide)]
  cases hc : cutFirstOpt '#' s with
  | none =>
    simp only [Option.map_none']
    rw [parseNoFrag_scheme_swap s]
    cases parseNoFrag (['s', 'o', 'c', 'k', 's', '5', ':', '/', '/'] ++ s) with
    | error e => rfl
    | ok u => rfl
  | some pr =>
    simp only [Option.map_some']
    rw [parseNoFrag_scheme_swap pr.1]
    cases parseNoFrag (['s', 'o', 'c', 'k', 's', '5', ':', '/', '/'] ++ pr.1) with
    | error e => rfl
    | ok u =>
      by_cases hpv : percentValid pr.2 = true <;> simp [hpv, Except.map]

/-- The scheme swap at the `parseProxy` level: same endpoint fields, only the
stored raw form differs. -/
theorem parseProxy_scheme_swap (s : String) :
    parseProxy ("socks4://" ++ s) =
      (parseProxy ("socks5://" ++ s)).map
        (fun i => { i with raw := "socks4://" ++ s }) := by
  have hd4 : ("socks4://" ++ s).data
      = ['s', 'o', 'c', 'k', 's', '4', ':', '/', '/'] ++ s.data := by
    rw [String.data_append]
  have hd5 : ("socks5://" ++ s).data
      = ['s', 'o', 'c', 'k', 's', '5', ':', '/', '/'] ++ s.data := by
    rw [String.data_append]
  have hn4 : normalizeProxy ("socks4://" ++ s) = "socks4://" ++ s := by
    unfold normalizeProxy
    have h : goHasPrefix ("socks4://" ++ s) "socks4://" = true := by
      unfold goHasPrefix
      rw [hd4]
      exact hasPrefixCL_append _ _
    simp [h]
  have hn5 : normalizeProxy ("socks5://" ++ s) = "socks5://" ++ s := by
    unfold normalizeProxy
    have h : goHasPrefix ("socks5://" ++ s) "socks5://" = true := by
      unfold goHasPrefix
      rw [hd5]
      exact hasPrefixCL_append _ _
    simp [h]
  unfold parseProxy goURLParse
  rw [hn4, hn5, hd4, hd5, goURLParseCore_scheme_swap]
  cases goURLParseCore (['s', 'o', 'c', 'k', 's', '5', ':', '/', '/'] ++ s.data) with
  | error e => rfl
  | ok u =>
    simp only [Except.map, Option.map_some']
    have hh : GoURL.hostname { u with scheme := "socks4" } = u.hostname := rfl
    have hp2 : GoURL.port { u with scheme := "socks4" } = u.port := rfl
    rw [hh, hp2]
    split <;> rfl

/-- C8: for a string carrying neither scheme marker, probing it under
`socks4://` and under `socks5://` parses to the same host, port and
credentials (only the stored raw form differs), attempts exactly the same
external steps — in particular the same SOCKS5 dialer construction — and
produces outcomes differing only in the echoed raw proxy string. -/
theorem testProxy_scheme_cosmetic (s : String)
    (h5 : goHasPrefix s "socks5://" = false)
    (h4 : goHasPrefix s "socks4://" = false)
    (net : NetOracle) (timeout : Nat) (testURL : String) :
    parseProxy ("socks4://" ++ s) =
      (parseProxy ("socks5://" ++ s)).map
        (fun i => { i with raw := "socks4://" ++ s }) ∧
    (testProxyEx net ("socks4://" ++ s) timeout testURL).2 =
      (testProxyEx net ("socks5://" ++ s) timeout testURL).2 ∧
    (testProxyEx net ("socks4://" ++ s) timeout testURL).1 =
      { (testProxyEx net ("socks5://" ++ s) timeout testURL).1 with
          proxy := "socks4://" ++ s } := by
  have hpp := parseProxy_scheme_swap s
  refine ⟨hpp, ?_⟩
  cases hr : parseProxy ("socks5://" ++ s) with
  | error e =>
    have h4r : parseProxy ("socks4://" ++ s) = .error e := by
      rw [hpp, hr]; rfl
    unfold testProxyEx
    simp [h4r, hr]
  | ok i =>
    have h4r : parseProxy ("socks4://" ++ s) =
        .ok { i with raw := "socks4://" ++ s } := by
      rw [hpp, hr]; rfl
    have hauth : authOf { i with raw := "socks4://" ++ s } = authOf i := rfl
    unfold testProxyEx
    simp only [h4r, hr, hauth]
    cases hd : net.socks5 (joinHostPort i.host i.port) (authOf i) with
    | error e => simp [hd]
    | ok u0 =>
      cases hq : net.newRequest testURL with
      | error e => simp [hq]
      | ok u1 =>
        cases hx : net.exchange (joinHostPort i.host i.port) (authOf i)
            testURL timeout with
        | reqError e => simp [hx]
        | readError e => simp [hx]
        | response code => simp [hx]

/-- Witness for C8 on `h:1080` with a fully successful network. -/
theorem testProxy_scheme_cosmetic_witness :
    parseProxy ("socks4://" ++ "h:1080") =
      (parseProxy ("socks5://" ++ "h:1080")).map
        (fun i => { i with raw := "socks4://" ++ "h:1080" }) ∧
    (testProxyEx okOracle ("socks4://" ++ "h:1080") 5 "u").2 =
      (testProxyEx okOracle ("socks5://" ++ "h:1080") 5 "u").2 ∧
    (testProxyEx okOracle ("socks4://" ++ "h:1080") 5 "u").1 =
      { (testProxyEx okOracle ("socks5://" ++ "h:1080") 5 "u").1 with
          proxy := "socks4://" ++ "h:1080" } :=
  testProxy_scheme_cosmetic "h:1080" rfl rfl okOracle 5 "u"

/-! ## Claim C5 -/

/-- Counterexample to C5 as stated: supplying BOTH `-proxy` and `-file` is
not rejected — `main` proceeds with the single `-proxy` value and ignores
the file entirely (no usage error, no nonzero exit). -/
theorem main_both_flags_counterexample :
    mainSelectProxies "socks5://h:1080" "proxies.txt" (fun _ => .error "open failed") =
      .run ["socks5://h:1080"] ∧
    mainOutcomeExit (mainSelectProxies "socks5://h:1080" "proxies.txt"
      (fun _ => .error "open failed")) = none :=
  ⟨rfl, rfl⟩

/-- C5 (amended): supplying neither flag is a fatal usage error (exit 1);
when `-proxy` is non-empty it is used and `-file` is ignored (no usage
check); a file read error and an empty effective proxy list are fatal
(exit 1). -/
theorem main_flag_contract (readFile : String → Except String (List Char))
    (p f : String) :
    (mainSelectProxies "" "" readFile = .usageError ∧
     mainOutcomeExit (mainSelectProxies "" "" readFile) = some 1) ∧
    (p ≠ "" → mainSelectProxies p f readFile = .run [p]) ∧
    (∀ e, readFile f = .error e → f ≠ "" →
       mainSelectProxies "" f readFile = .loadError e ∧
       mainOutcomeExit (mainSelectProxies "" f readFile) = some 1) ∧
    (∀ cs, readFile f = .ok cs → loadProxiesFromFile cs = [] → f ≠ "" →
       mainSelectProxies "" f readFile = .noProxies ∧
       mainOutcomeExit (mainSelectProxies "" f readFile) = some 1) := by
  refine ⟨⟨rfl, rfl⟩, ?_, ?_, ?_⟩
  · intro hp
    simp [mainSelectProxies, hp]
  · intro e he hf
    constructor <;> simp [mainSelectProxies, mainOutcomeExit, hf, he, Except.map]
  · intro cs hcs hload hf
    constructor <;>
      simp [mainSelectProxies, mainOutcomeExit, hf, hcs, hload, Except.map]

/-- Witness for the amended C5: a run with `-proxy` set, and a fatal run
whose file holds only a comment line. -/
theorem main_flag_contract_witness :
    mainSelectProxies "x" "y" (fun _ => Except.ok ['#']) = .run ["x"] ∧
    mainSelectProxies "" "y" (fun _ => Except.ok ['#']) = .noProxies := by
  constructor
  · exact (main_flag_contract (fun _ => Except.ok ['#']) "x" "y").2.1 (by decide)
  · exact ((main_flag_contract (fun _ => Except.ok ['#']) "" "y").2.2.2
      ['#'] rfl (by decide) (by decide)).1

/-! ## Claim C7 -/

/-- `splitNL` always yields at least one piece. -/
theorem splitNL_ne_nil (cs : List Char) : splitNL cs ≠ [] := by
  induction cs with
  | nil => simp [splitNL]
  | cons c cs ih =>
    by_cases hc : c = '\n'
    · simp [splitNL, hc]
    · simp only [splitNL, hc, if_false]
      cases h2 : splitNL cs <;> simp

/-- A newline-free line followed by `\n` is split off as one piece. -/
theorem splitNL_append (l rest : List Char) (h : '\n' ∉ l) :
    splitNL (l ++ '\n' :: rest) = l :: splitNL rest := by
  induction l with
  | nil => simp [splitNL]
  | cons c cs ih =>
    have hc : ¬ c = '\n' := fun hx => h (by simp [hx])
    have hcs : '\n' ∉ cs := fun hx => h (by simp [hx])
    rw [List.cons_append]
    simp only [splitNL, hc, if_false, ih hcs]

/-- The scanner emits a newline-free, newline-terminated line as one token. -/
theorem lineTokens_cons_line (l rest : List Char) (h : '\n' ∉ l) :
    lineTokens (l ++ '\n' :: rest) = l :: lineTokens rest := by
  unfold lineTokens
  rw [splitNL_append l rest h]
  cases h2 : splitNL rest with
  | nil => exact absurd h2 (splitNL_ne_nil rest)
  | cons p ps =>
    rw [List.getLast?_cons_cons]
    by_cases hlast : (p :: ps).getLast? = some []
    · simp [hlast, List.dropLast]
    · simp [hlast]

/-- `dropWhile` never lengthens a list. -/
theorem dropWhile_length_le {α : Type} (p : α → Bool) (l : List α) :
    (l.dropWhile p).length ≤ l.length := by
  induction l with
  | nil => simp
  | cons c cs ih =>
    by_cases hp : p c
    · rw [List.dropWhile_cons_of_pos hp]
      exact Nat.le_succ_of_le ih
    · rw [List.dropWhile_cons_of_neg hp]

/-- A `dropWhile` that preserves the length drops nothing. -/
theorem dropWhile_length_eq {α : Type} (p : α → Bool) (l : List α)
    (h : (l.dropWhile p).length = l.length) : l.dropWhile p = l := by
  cases l with
  | nil => rfl
  | cons c cs =>
    by_cases hp : p c
    · exfalso
      rw [List.dropWhile_cons_of_pos hp] at h
      have := dropWhile_length_le p cs
      simp at h
      omega
    · rw [List.dropWhile_cons_of_neg hp]

/-- A trim fixed point has no trailing carriage return, so `dropCR` is the
identity on it. -/
theorem dropTrailingCR_of_trim_fix (l : List Char) (h : goTrim l = l) :
    dropTrailingCR l = l := by
  unfold dropTrailingCR
  by_cases hl : l.getLast? = some '\r'
  · exfalso
    unfold goTrim at h
    have h1 : ((l.dropWhile isGoSpace).reverse.dropWhile isGoSpace).length = l.length := by
      have := congrArg List.length h
      simpa using this
    have h2 := dropWhile_length_le isGoSpace (l.dropWhile isGoSpace).reverse
    have h3 := dropWhile_length_le isGoSpace l
    rw [List.length_reverse] at h2
    have h5 : (l.dropWhile isGoSpace).length = l.length := by omega
    have h6 : (l.dropWhile isGoSpace).reverse.dropWhile isGoSpace
        = (l.dropWhile isGoSpace).reverse := by
      apply dropWhile_length_eq
      rw [List.length_reverse]
      omega
    rw [h6] at h
    have h7 : l.dropWhile isGoSpace = l := by
      have := congrArg List.reverse h
      simpa using this
    rw [h7] at h6
    have h8 : l.reverse.head? = some '\r' := by
      rw [List.head?_reverse]
      exact hl
    cases hrev : l.reverse with
    | nil => simp [hrev] at h8
    | cons c cs =>
      rw [hrev] at h6 h8
      have hc : c = '\r' := by simpa using h8
      subst hc
      have hsp : isGoSpace '\r' = true := rfl
      rw [List.dropWhile_cons_of_pos hsp] at h6
      have hlen := congrArg List.length h6
      have := dropWhile_length_le isGoSpace cs
      simp at hlen
      omega
  · simp [hl]

/-- The conditions under which a raw proxy string survives the
write-then-read cycle unchanged: no embedded newline, invariant under
whitespace trimming, non-empty, and not a comment line.  (Every string
the parser accepts has these properties; adversarial `TestResult` records
need not.) -/
def cleanLine (l : List Char) : Prop :=
  '\n' ∉ l ∧ goTrim l = l ∧ l ≠ [] ∧ l.head? ≠ some '#'

instance cleanLine.decidable (l : List Char) : Decidable (cleanLine l) := by
  unfold cleanLine
  infer_instance

/-- Reading back a newline-terminated file of clean lines returns exactly
those lines in order. -/
theorem loadProxies_writes (ps : List String) (h : ∀ p ∈ ps, cleanLine p.data) :
    loadProxiesFromFile (ps.flatMap (fun p => p.data ++ ['\n'])) = ps := by
  induction ps with
  | nil => rfl
  | cons p ps ih =>
    obtain ⟨hnl, htr, hne, hhd⟩ := h p (by simp)
    have ih2 := ih (fun q hq => h q (by simp [hq]))
    rw [List.flatMap_cons, List.append_assoc]
    unfold loadProxiesFromFile at ih2 ⊢
    rw [show (['\n'] ++ ps.flatMap (fun p => p.data ++ ['\n']))
        = '\n' :: ps.flatMap (fun p => p.data ++ ['\n']) from rfl]
    rw [lineTokens_cons_line p.data _ hnl]
    rw [List.filterMap_cons]
    simp only [dropTrailingCR_of_trim_fix p.data htr, htr, hne, hhd]
    simp only [ne_eq, not_false_iff, true_and, if_true, stringMk_data]
    rw [ih2]
    simp [hne, hhd, stringMk_data]

/-- Counterexample to C7 as stated: a result collection whose successful
outcome's raw string is the comment line `#x` writes one line but reads
back zero (the loader skips comment lines), so the round trip does not
return the original collection. -/
theorem save_load_roundtrip_counterexample :
    (saveSuccessfulProxies [⟨"#x", true, 0, ""⟩]).2 = 1 ∧
    loadProxiesFromFile (saveSuccessfulProxies [⟨"#x", true, 0, ""⟩]).1 = [] :=
  ⟨rfl, rfl⟩

/-- C7 (amended): for every result collection whose successful outcomes'
raw strings are clean (no embedded newline, trim-invariant, non-empty, not
starting with `#` — true of every string the parser accepts), saving and
re-loading yields exactly the successful raw strings, in order, and the
reported count is their number. -/
theorem save_load_roundtrip (results : List TestResult)
    (hclean : ∀ r ∈ results, r.success = true → cleanLine r.proxy.data) :
    loadProxiesFromFile (saveSuccessfulProxies results).1 =
      (results.filter (fun r => r.success)).map (fun r => r.proxy) ∧
    (saveSuccessfulProxies results).2 =
      (results.filter (fun r => r.success)).length := by
  unfold saveSuccessfulProxies
  refine ⟨?_, rfl⟩
  have hmap : (results.filter (fun r => r.success)).flatMap
        (fun r => r.proxy.data ++ ['\n'])
      = ((results.filter (fun r => r.success)).map (fun r => r.proxy)).flatMap
        (fun p => p.data ++ ['\n']) := by
    rw [List.flatMap_map]
  rw [hmap]
  apply loadProxies_writes
  intro p hp
  simp only [List.mem_map, List.mem_filter] at hp
  obtain ⟨r, ⟨hr, hs⟩, hpr⟩ := hp
  rw [← hpr]
  exact hclean r hr hs

/-- Witness for the amended C7: one clean successful entry among a failed
one survives the round trip. -/
theorem save_load_roundtrip_witness :
    loadProxiesFromFile (saveSuccessfulProxies
      [⟨"socks5://h:1080", true, 5, ""⟩, ⟨"bad", false, 0, "invalid"⟩]).1 =
      ["socks5://h:1080"] := by
  have h := (save_load_roundtrip
      [⟨"socks5://h:1080", true, 5, ""⟩, ⟨"bad", false, 0, "invalid"⟩]
      (by decide)).1
  exact h

/-! ## Claims C1 and C10: the worker pool -/

/-- An idle worker carries no job. -/
theorem busyJobs_idle_cons (w : Multiset WStatus) :
    busyJobs (WStatus.idle ::ₘ w) = busyJobs w :=
  Multiset.filterMap_cons_none _ _ rfl

/-- An exited worker carries no job. -/
theorem busyJobs_done_cons (w : Multiset WStatus) :
    busyJobs (WStatus.done ::ₘ w) = busyJobs w :=
  Multiset.filterMap_cons_none _ _ rfl

/-- A busy worker carries exactly its job. -/
theorem busyJobs_busy_cons (x : String) (w : Multiset WStatus) :
    busyJobs (WStatus.busy x ::ₘ w) = x ::ₘ busyJobs w :=
  Multiset.filterMap_cons_some _ _ _ rfl

/-- The conservation invariant of a pool run: every input is in exactly one
place — still queued, in flight at a worker, or delivered as a result —
so the three groups' probe outcomes always add up to the whole input's. -/
def dispatchInv (probe : String → TestResult) (proxies : List String)
    (s : PoolState) : Prop :=
  (↑(s.queue.map probe) : Multiset TestResult) +
      Multiset.map probe (busyJobs s.workers) + ↑s.results =
    ↑(proxies.map probe)

/-- Once any worker has exited, the queue was already empty (a worker only
exits on the closed, drained channel, and the queue never grows). -/
def drainedOnDone (s : PoolState) : Prop :=
  WStatus.done ∈ s.workers → s.queue = []

/-- All run invariants together (conservation, drain-on-exit, fixed worker
count). -/
def dispatchGood (probe : String → TestResult) (proxies : List String)
    (threads : Int) (s : PoolState) : Prop :=
  dispatchInv probe proxies s ∧ drainedOnDone s ∧
    Multiset.card s.workers = threads.toNat

/-- One scheduler step preserves the run invariants. -/
theorem dispatchStep_good {probe : String → TestResult} {proxies : List String}
    {threads : Int} {s t : PoolState} (hs : DispatchStep probe s t)
    (hg : dispatchGood probe proxies threads s) :
    dispatchGood probe proxies threads t := by
  obtain ⟨hinv, hdone, hcard⟩ := hg
  cases hs with
  | take x rest w res =>
    refine ⟨?_, ?_, ?_⟩
    · unfold dispatchInv at hinv ⊢
      simp only [busyJobs_busy_cons, busyJobs_idle_cons, List.map_cons,
        ← Multiset.cons_coe, Multiset.map_cons] at hinv ⊢
      apply Multiset.ext.mpr
      intro a
      have hc := congrArg (Multiset.count a) hinv
      simp only [Multiset.count_add, Multiset.count_cons] at hc ⊢
      omega
    · intro hd
      exfalso
      rcases Multiset.mem_cons.mp hd with h | h
      · exact WStatus.noConfusion h
      · have : WStatus.done ∈ WStatus.idle ::ₘ w := Multiset.mem_cons_of_mem h
        exact List.noConfusion (hdone this)
    · simpa using hcard
  | finish q x w res =>
    refine ⟨?_, ?_, ?_⟩
    · unfold dispatchInv at hinv ⊢
      simp only [busyJobs_busy_cons, busyJobs_idle_cons, Multiset.map_cons] at hinv ⊢
      apply Multiset.ext.mpr
      intro a
      have hc := congrArg (Multiset.count a) hinv
      have hres : (↑(res ++ [probe x]) : Multiset TestResult) = probe x ::ₘ ↑res := by
        simp
      rw [hres]
      simp only [Multiset.count_add, Multiset.count_cons] at hc ⊢
      omega
    · intro hd
      apply hdone
      rcases Multiset.mem_cons.mp hd with h | h
      · exact WStatus.noConfusion h
      · exact Multiset.mem_cons_of_mem h
    · simpa using hcard
  | exit w res =>
    refine ⟨?_, fun _ => rfl, ?_⟩
    · unfold dispatchInv at hinv ⊢
      simpa only [busyJobs_done_cons, busyJobs_idle_cons] using hinv
    · simpa using hcard

/-- The run invariants hold along every schedule. -/
theorem dispatchReaches_good {probe : String → TestResult} {proxies : List String}
    {threads : Int} {s t : PoolState} (hr : DispatchReaches probe s t)
    (hg : dispatchGood probe proxies threads s) :
    dispatchGood probe proxies threads t := by
  unfold DispatchReaches at hr
  induction hr with
  | refl => exact hg
  | tail h1 h2 ih => exact dispatchStep_good h2 ih

/-- The run invariants hold initially. -/
theorem dispatchGood_init (probe : String → TestResult) (proxies : List String)
    (threads : Int) :
    dispatchGood probe proxies threads (initState proxies threads) := by
  refine ⟨?_, ?_, ?_⟩
  · unfold dispatchInv initState
    have hb : busyJobs (Multiset.replicate threads.toNat WStatus.idle) = 0 := by
      induction threads.toNat with
      | zero => rfl
      | succ n ih => rw [Multiset.replicate_succ, busyJobs_idle_cons, ih]
    simp [hb]
  · intro hd
    exact absurd (Multiset.eq_of_mem_replicate hd) (by simp)
  · simp [initState]

/-- When every worker has exited, none is busy. -/
theorem busyJobs_eq_zero_of_done (w : Multiset WStatus)
    (h : ∀ x ∈ w, x = WStatus.done) : busyJobs w = 0 := by
  induction w using Multiset.induction_on with
  | empty => rfl
  | cons a s ih =>
    have ha := h a (Multiset.mem_cons_self a s)
    subst ha
    rw [busyJobs_done_cons]
    exact ih fun x hx => h x (Multiset.mem_cons_of_mem hx)

/-- C1: for any input list and any `threads ≥ 1`, when a run of
`testProxies` completes (every worker has exited), the collected results
are — as a multiset — exactly one probe outcome per input line, so their
number equals the input size, regardless of scheduling order. -/
theorem testProxies_outcome_count (net : NetOracle) (timeout : Nat)
    (testURL : String) (proxies : List String) (threads : Int)
    (hth : 1 ≤ threads) (s : PoolState)
    (hr : DispatchReaches (fun p => testProxy net p timeout testURL)
            (initState proxies threads) s)
    (hdone : DispatchDone s) :
    (↑s.results : Multiset TestResult) =
      ↑(proxies.map (fun p => testProxy net p timeout testURL)) ∧
    s.results.length = proxies.length := by
  obtain ⟨hinv, hdrain, hcard⟩ :=
    dispatchReaches_good hr
      (dispatchGood_init (fun p => testProxy net p timeout testURL) proxies threads)
  have hpos : 0 < Multiset.card s.workers := by
    rw [hcard]
    omega
  obtain ⟨wst, hwst⟩ := Multiset.card_pos_iff_exists_mem.mp hpos
  have hq : s.queue = [] := hdrain (hdone wst hwst ▸ hwst)
  have hbusy : busyJobs s.workers = 0 := busyJobs_eq_zero_of_done _ hdone
  unfold dispatchInv at hinv
  rw [hq, hbusy] at hinv
  simp only [List.map_nil, Multiset.map_zero, Multiset.coe_nil, zero_add] at hinv
  refine ⟨hinv, ?_⟩
  have hlen := congrArg Multiset.card hinv
  simpa [Multiset.coe_card] using hlen

/-- Witness for C1: a single proxy, one worker, and the full
take-finish-exit schedule. -/
theorem testProxies_outcome_count_witness :
    (↑[testProxy okOracle "h:1080" 1 "u"] : Multiset TestResult) =
      ↑(["h:1080"].map (fun p => testProxy okOracle p 1 "u")) ∧
    ([testProxy okOracle "h:1080" 1 "u"] : List TestResult).length =
      (["h:1080"] : List String).length := by
  refine testProxies_outcome_count okOracle 1 "u" ["h:1080"] 1 (by omega)
    ⟨[], {WStatus.done}, [testProxy okOracle "h:1080" 1 "u"]⟩ ?_ ?_
  · exact Relation.ReflTransGen.head (DispatchStep.take "h:1080" [] 0 [])
      (Relation.ReflTransGen.head (DispatchStep.finish [] "h:1080" 0 [])
        (Relation.ReflTransGen.head
          (DispatchStep.exit 0 [testProxy okOracle "h:1080" 1 "u"])
          Relation.ReflTransGen.refl))
  · intro w hw
    simpa using hw

/-- No scheduler step starts from a state with no workers. -/
theorem dispatchStep_workers_ne_zero {probe : String → TestResult}
    {a b : PoolState} (hs : DispatchStep probe a b) : a.workers ≠ 0 := by
  cases hs <;> exact Multiset.cons_ne_zero

/-- C10: with `threads ≤ 0` (zero or negative), `testProxies` starts no
workers: the run is already complete at its initial state (so it returns
immediately rather than blocking), the result collection is empty, and all
inputs remain in the queue, lost. -/
theorem testProxies_zero_threads (net : NetOracle) (timeout : Nat)
    (testURL : String) (proxies : List String) (threads : Int)
    (hth : threads ≤ 0) (hne : proxies ≠ []) (s : PoolState)
    (hr : DispatchReaches (fun p => testProxy net p timeout testURL)
            (initState proxies threads) s) :
    s.results = [] ∧ s.queue = proxies ∧ DispatchDone s := by
  have hw0 : (initState proxies threads).workers = 0 := by
    unfold initState
    simp [Int.toNat_eq_zero.mpr hth]
  have hsame : s = initState proxies threads := by
    unfold DispatchReaches at hr
    induction hr with
    | refl => rfl
    | tail h1 h2 ih =>
      exact absurd hw0 (ih ▸ dispatchStep_workers_ne_zero h2)
  subst hsame
  refine ⟨rfl, rfl, ?_⟩
  intro w hw
  rw [hw0] at hw
  exact absurd hw (Multiset.not_mem_zero w)

/-- Witness for C10: one input, zero threads, the empty schedule. -/
theorem testProxies_zero_threads_witness :
    (initState ["a"] 0).results = [] ∧ (initState ["a"] 0).queue = ["a"] ∧
    DispatchDone (initState ["a"] 0) :=
  testProxies_zero_threads okOracle 1 "u" ["a"] 0 (by omega) (by simp)
    (initState ["a"] 0) Relation.ReflTransGen.refl
